import Mathlib

/-!
Shallow embedding of the rate limiter core (FixedWindow, TokenBucket,
LeakyBucket, SlidingWindowLog engines) of the api-rate-limiter repository.

JavaScript numbers are modelled as rationals (`ℚ`); all arithmetic in the
source on the modelled paths is exact on the inputs considered, so `ℚ`
reflects it faithfully.  Timestamps (`Date.now()`) are rationals in
milliseconds and are passed explicitly as `now` parameters.  Per-client
state stored in the engines' `Map`s is passed explicitly: `check` receives
the stored record for the client (`none` when the client is new, mirroring
`this.buckets.get(clientId)` returning `undefined`) and returns the decision
object together with the record as stored back.  `logger` calls have no
effect on state or results and are omitted.
-/

namespace RateLimiter

/-- Timestamps in milliseconds, as produced by `Date.now()`. -/
abbrev Time := ℚ

/-- JavaScript `x || d` applied to a numeric option field: `undefined` and
`0` are falsy and select the default `d`; every other rational is truthy. -/
def jsOrDefault (v : Option ℚ) (d : ℚ) : ℚ :=
  match v with
  | none => d
  | some x => if x = 0 then d else x

/-- JavaScript `Math.floor` on a rational. -/
def jsFloor (q : ℚ) : ℤ := ⌊q⌋

/-- JavaScript `Math.ceil` on a rational. -/
def jsCeil (q : ℚ) : ℤ := ⌈q⌉

/-! ## Token Bucket (src/algorithms/TokenBucket.js) -/

/-- The `options` argument of the `TokenBucketRateLimiter` constructor:
absent fields are `none`. -/
structure TBOptions where
  capacity : Option ℚ := none
  refillRate : Option ℚ := none
  tokensPerRequest : Option ℚ := none

/-- Immutable configuration of a `TokenBucketRateLimiter` instance as set by
its constructor. -/
structure TBConfig where
  capacity : ℚ
  refillRate : ℚ
  tokensPerRequest : ℚ
deriving DecidableEq

/-- The `TokenBucketRateLimiter` constructor.  The source assigns
`options.capacity || 100`, `options.refillRate || 10`,
`options.tokensPerRequest || 1` and never throws; the `Except` result records
that construction cannot signal a configuration error. -/
def tokenBucketConstructor (options : TBOptions) : Except String TBConfig :=
  .ok { capacity := jsOrDefault options.capacity 100
        refillRate := jsOrDefault options.refillRate 10
        tokensPerRequest := jsOrDefault options.tokensPerRequest 1 }

/-- Per-client record stored in `this.buckets`:
`{ tokens: number, lastRefill: timestamp }`. -/
structure TBBucket where
  tokens : ℚ
  lastRefill : Time
deriving DecidableEq

/-- `refillBucket(bucket)`: adds `secondsElapsed * refillRate` tokens, capped
at `capacity`, and sets `lastRefill = now`.  The elapsed time
`now - bucket.lastRefill` is used as computed, without any clamp. -/
def refillBucket (cfg : TBConfig) (now : Time) (bucket : TBBucket) : TBBucket :=
  let secondsElapsed := (now - bucket.lastRefill) / 1000
  let tokensToAdd := secondsElapsed * cfg.refillRate
  { tokens := min cfg.capacity (bucket.tokens + tokensToAdd)
    lastRefill := now }

/-- The decision object built by `TokenBucketRateLimiter.check`.
`resetTime` is kept as the underlying timestamp (the source formats it as an
ISO string); the nested `metadata` object is reflected by its numeric fields
`tokensConsumed` and `tokensRemaining`. -/
structure TBDecision where
  allowed : Bool
  limit : ℚ
  remaining : ℤ
  resetTime : Time
  resetIn : ℤ
  retryAfter : ℤ
  tokensConsumed : ℚ
  tokensRemaining : ℚ
deriving DecidableEq

/-- `TokenBucketRateLimiter.check(clientId, tokensRequired)` for one client:
takes the stored bucket for the client (`none` for a new client, which
starts with a full bucket) and returns the decision together with the bucket
as stored after the call. -/
def tbCheck (cfg : TBConfig) (now : Time) (stored : Option TBBucket)
    (tokensRequired : ℚ) : TBDecision × TBBucket :=
  let bucket0 := stored.getD { tokens := cfg.capacity, lastRefill := now }
  let bucket1 := refillBucket cfg now bucket0
  let allowed : Bool := tokensRequired ≤ bucket1.tokens
  let bucket2 := if allowed then
      { bucket1 with tokens := bucket1.tokens - tokensRequired }
    else bucket1
  let tokensNeeded := if allowed then 0 else tokensRequired - bucket2.tokens
  let secondsUntilReady := tokensNeeded / cfg.refillRate
  let resetTime := now + secondsUntilReady * 1000
  ({ allowed := allowed
     limit := cfg.capacity
     remaining := jsFloor bucket2.tokens
     resetTime := resetTime
     resetIn := jsCeil secondsUntilReady
     retryAfter := if allowed then 0 else jsCeil secondsUntilReady
     tokensConsumed := if allowed then tokensRequired else 0
     tokensRemaining := bucket2.tokens }, bucket2)

/-- Snapshot returned by `TokenBucketRateLimiter.getBucketState`; the
percentage string is reflected by the underlying `tokens` and `capacity`. -/
structure TBState where
  tokens : ℚ
  capacity : ℚ
  lastRefill : Time
deriving DecidableEq

/-- `TokenBucketRateLimiter.getBucketState(clientId)`: returns `null` for an
unknown client; otherwise calls `this.refillBucket(bucket)` on the stored
record — which mutates it — and reads the snapshot from the mutated record.
The second component is the stored record after the call. -/
def tbGetBucketState (cfg : TBConfig) (now : Time) (stored : Option TBBucket) :
    Option TBState × Option TBBucket :=
  match stored with
  | none => (none, none)
  | some bucket =>
    let bucket1 := refillBucket cfg now bucket
    (some { tokens := bucket1.tokens
            capacity := cfg.capacity
            lastRefill := bucket1.lastRefill }, some bucket1)

/-- A sequence of `check` calls for one client: each event is a pair of the
call's `Date.now()` and its `tokensRequired` argument.  Returns the stored
bucket after the run (`none` when no call was made for the client yet). -/
def tbRun (cfg : TBConfig) (stored : Option TBBucket) :
    List (Time × ℚ) → Option TBBucket
  | [] => stored
  | (now, cost) :: rest => tbRun cfg (some (tbCheck cfg now stored cost).2) rest

/-! ## Leaky Bucket (src/algorithms/LeakyBucket.js) -/

/-- Immutable configuration of a `LeakyBucketRateLimiter` instance
(`queueRequests` is configuration the modelled paths never read). -/
structure LBConfig where
  capacity : ℚ
  leakRate : ℚ
deriving DecidableEq

/-- Per-client record stored in `this.buckets`:
`{ size: number, lastLeak: timestamp }`. -/
structure LBBucket where
  size : ℚ
  lastLeak : Time
deriving DecidableEq

/-- `leakFromBucket(bucket)`: removes `secondsElapsed * leakRate` from
`size`, capped below at `0`, and sets `lastLeak = now`.  The elapsed time
`now - bucket.lastLeak` is used as computed, without any clamp. -/
def leakFromBucket (cfg : LBConfig) (now : Time) (bucket : LBBucket) : LBBucket :=
  let secondsElapsed := (now - bucket.lastLeak) / 1000
  let requestsToLeak := secondsElapsed * cfg.leakRate
  { size := max 0 (bucket.size - requestsToLeak)
    lastLeak := now }

/-- The decision object built by `LeakyBucketRateLimiter.check`; the nested
`metadata` object is reflected by its numeric fields `bucketSize` and
`spaceAvailable`. -/
structure LBDecision where
  allowed : Bool
  limit : ℚ
  remaining : ℤ
  resetTime : Time
  resetIn : ℤ
  retryAfter : ℤ
  bucketSize : ℚ
  spaceAvailable : ℚ
deriving DecidableEq

/-- `LeakyBucketRateLimiter.check(clientId, requestSize)` for one client:
takes the stored bucket (`none` for a new client, which starts empty) and
returns the decision together with the bucket as stored after the call.
`spaceAvailable` is computed before the admitted request is added, and
`remaining` is floored from that pre-admission value. -/
def lbCheck (cfg : LBConfig) (now : Time) (stored : Option LBBucket)
    (requestSize : ℚ) : LBDecision × LBBucket :=
  let bucket0 := stored.getD { size := 0, lastLeak := now }
  let bucket1 := leakFromBucket cfg now bucket0
  let spaceAvailable := cfg.capacity - bucket1.size
  let allowed : Bool := requestSize ≤ spaceAvailable
  let bucket2 := if allowed then
      { bucket1 with size := bucket1.size + requestSize }
    else bucket1
  let spaceNeeded := if allowed then 0 else requestSize - spaceAvailable
  let secondsUntilSpace := spaceNeeded / cfg.leakRate
  let resetTime := now + secondsUntilSpace * 1000
  ({ allowed := allowed
     limit := cfg.capacity
     remaining := jsFloor spaceAvailable
     resetTime := resetTime
     resetIn := jsCeil secondsUntilSpace
     retryAfter := if allowed then 0 else jsCeil secondsUntilSpace
     bucketSize := bucket2.size
     spaceAvailable := spaceAvailable }, bucket2)

/-- Snapshot returned by `LeakyBucketRateLimiter.getBucketState`; the
percentage and duration strings are reflected by the underlying numbers. -/
structure LBState where
  size : ℚ
  capacity : ℚ
  spaceAvailable : ℚ
  lastLeak : Time
deriving DecidableEq

/-- `LeakyBucketRateLimiter.getBucketState(clientId)`: returns `null` for an
unknown client; otherwise calls `this.leakFromBucket(bucket)` on the stored
record — which mutates it — and reads the snapshot from the mutated record.
The second component is the stored record after the call. -/
def lbGetBucketState (cfg : LBConfig) (now : Time) (stored : Option LBBucket) :
    Option LBState × Option LBBucket :=
  match stored with
  | none => (none, none)
  | some bucket =>
    let bucket1 := leakFromBucket cfg now bucket
    (some { size := bucket1.size
            capacity := cfg.capacity
            spaceAvailable := cfg.capacity - bucket1.size
            lastLeak := bucket1.lastLeak }, some bucket1)

/-- `LeakyBucketRateLimiter.cleanup()`: for every stored entry it first calls
`this.leakFromBucket(bucket)` — which sets the entry's `lastLeak` to the
sweep's current time — then computes `idleTime = now - bucket.lastLeak` from
the updated record and deletes the entry when `bucket.size === 0` and
`idleTime > 10 * 60 * 1000`.  The store is an association list in insertion
order, mirroring iteration order of the JavaScript `Map`. -/
def lbCleanup (cfg : LBConfig) (now : Time)
    (store : List (String × LBBucket)) : List (String × LBBucket) :=
  let maxIdleTime : ℚ := 10 * 60 * 1000
  (store.map (fun e => (e.1, leakFromBucket cfg now e.2))).filter
    (fun e => !(e.2.size = 0 ∧ maxIdleTime < now - e.2.lastLeak : Bool))

/-- A sequence of `check` calls for one client of a `LeakyBucketRateLimiter`:
each event pairs the call's `Date.now()` with its `requestSize` argument. -/
def lbRun (cfg : LBConfig) (stored : Option LBBucket) :
    List (Time × ℚ) → Option LBBucket
  | [] => stored
  | (now, cost) :: rest => lbRun cfg (some (lbCheck cfg now stored cost).2) rest

/-! ## Fixed Window (src/algorithms/FixedWindow.js) -/

/-- The `options` argument of the `FixedWindowRateLimiter` constructor. -/
structure FWOptions where
  windowMs : Option ℚ := none
  maxRequests : Option ℚ := none

/-- Immutable configuration of a `FixedWindowRateLimiter` instance. -/
structure FWConfig where
  windowMs : ℚ
  maxRequests : ℚ
deriving DecidableEq

/-- The `FixedWindowRateLimiter` constructor: assigns
`options.windowMs || 60000` and `options.maxRequests || 100`; it never
throws, so construction cannot signal a configuration error. -/
def fixedWindowConstructor (options : FWOptions) : Except String FWConfig :=
  .ok { windowMs := jsOrDefault options.windowMs 60000
        maxRequests := jsOrDefault options.maxRequests 100 }

/-- Per-client record stored in `this.clients`:
`{ count: number, windowStart: number }`. -/
structure FWClient where
  count : ℚ
  windowStart : Time
deriving DecidableEq

/-- `getCurrentWindowStart(timestamp)`:
`Math.floor(timestamp / this.windowMs) * this.windowMs`. -/
def getCurrentWindowStart (cfg : FWConfig) (timestamp : Time) : Time :=
  (jsFloor (timestamp / cfg.windowMs) : ℚ) * cfg.windowMs

/-- The decision object built by `FixedWindowRateLimiter.check`.  The source
object literal has fields `allowed`, `limit`, `remaining`, `resetTime`,
`resetIn` and `algorithm` only — in particular it has no `retryAfter`
property (reading `result.retryAfter` in JavaScript yields `undefined`). -/
structure FWDecision where
  allowed : Bool
  limit : ℚ
  remaining : ℚ
  resetTime : Time
  resetIn : ℤ
deriving DecidableEq

/-- JavaScript property access `decision.retryAfter` on a `FixedWindow`
decision object: the property is absent, so the access yields `undefined`,
modelled as `none`. -/
def FWDecision.retryAfterProp (_ : FWDecision) : Option ℤ := none

/-- `FixedWindowRateLimiter.check(clientId)` for one client: takes the
stored record (`none` for a new client) and returns the decision together
with the record as stored after the call. -/
def fwCheck (cfg : FWConfig) (now : Time) (stored : Option FWClient) :
    FWDecision × FWClient :=
  let currentWindowStart := getCurrentWindowStart cfg now
  let client0 := stored.getD { count := 0, windowStart := currentWindowStart }
  let client1 := if client0.windowStart < currentWindowStart then
      { count := 0, windowStart := currentWindowStart }
    else client0
  let allowed : Bool := client1.count < cfg.maxRequests
  let client2 := if allowed then { client1 with count := client1.count + 1 }
    else client1
  let resetTime := currentWindowStart + cfg.windowMs
  ({ allowed := allowed
     limit := cfg.maxRequests
     remaining := max 0 (cfg.maxRequests - client2.count)
     resetTime := resetTime
     resetIn := jsCeil ((resetTime - now) / 1000) }, client2)


/-- A sequence of `check` calls for one client of a `FixedWindowRateLimiter`:
each event is the call's `Date.now()`.  Returns the decisions in call order
together with the stored record after the run. -/
def fwRun (cfg : FWConfig) (stored : Option FWClient) :
    List Time → List FWDecision × Option FWClient
  | [] => ([], stored)
  | now :: rest =>
    let step := fwCheck cfg now stored
    let tail := fwRun cfg (some step.2) rest
    (step.1 :: tail.1, tail.2)

/-! ## Sliding Window Log (src/algorithms/SlidingWindowLog.js) -/

/-- Immutable configuration of a `SlidingWindowLogRateLimiter` instance. -/
structure SWLConfig where
  windowMs : ℚ
  maxRequests : ℚ
deriving DecidableEq

/-- `cleanLog(log, now)`: keeps the timestamps strictly newer than
`windowStart = now - windowMs`. -/
def cleanLog (cfg : SWLConfig) (log : List Time) (now : Time) : List Time :=
  let windowStart := now - cfg.windowMs
  log.filter (fun timestamp => windowStart < timestamp)

/-- The decision object built by `SlidingWindowLogRateLimiter.check`; the
nested `metadata` object is reflected by its `requestsInWindow` field. -/
structure SWLDecision where
  allowed : Bool
  limit : ℚ
  remaining : ℚ
  resetTime : Time
  resetIn : ℤ
  retryAfter : ℤ
  requestsInWindow : ℚ
deriving DecidableEq

/-- `SlidingWindowLogRateLimiter.check(clientId)` for one client: takes the
stored timestamp log (`none` for a new client, which starts with an empty
log) and returns the decision together with the log as stored after the
call. -/
def swlCheck (cfg : SWLConfig) (now : Time) (stored : Option (List Time)) :
    SWLDecision × List Time :=
  let log0 := stored.getD []
  let log1 := cleanLog cfg log0 now
  let requestCount := log1.length
  let allowed : Bool := (requestCount : ℚ) < cfg.maxRequests
  let log2 := if allowed then log1 ++ [now] else log1
  let oldestTimestamp := log2.headD now
  let resetTime := oldestTimestamp + cfg.windowMs
  let resetIn := jsCeil ((resetTime - now) / 1000)
  let countUsed : ℚ := if allowed then (log2.length : ℚ) else (requestCount : ℚ)
  ({ allowed := allowed
     limit := cfg.maxRequests
     remaining := max 0 (cfg.maxRequests - countUsed)
     resetTime := resetTime
     resetIn := resetIn
     retryAfter := if allowed then 0 else resetIn
     requestsInWindow := countUsed }, log2)

/-- Snapshot returned by `SlidingWindowLogRateLimiter.getLogState`; the
percentage string and the per-interval distribution histogram are local
values computed from `cleanedLog` and are reflected here by `timestamps`
itself. -/
structure SWLState where
  totalRequests : ℕ
  maxRequests : ℚ
  remaining : ℚ
  timestamps : List Time
deriving DecidableEq

/-- `SlidingWindowLogRateLimiter.getLogState(clientId)`: returns `null` for
an unknown client; otherwise computes `cleanedLog = this.cleanLog(log, now)`
— a fresh filtered array — and reads the snapshot from it.  Unlike `check`,
it never writes back to `this.requestLogs`, so the second component (the
stored log after the call) is the stored log unchanged. -/
def swlGetLogState (cfg : SWLConfig) (now : Time) (stored : Option (List Time)) :
    Option SWLState × Option (List Time) :=
  match stored with
  | none => (none, stored)
  | some log =>
    let cleanedLog := cleanLog cfg log now
    (some { totalRequests := cleanedLog.length
            maxRequests := cfg.maxRequests
            remaining := cfg.maxRequests - (cleanedLog.length : ℚ)
            timestamps := cleanedLog }, stored)

/-- A sequence of `check` calls for one client of a
`SlidingWindowLogRateLimiter`: each event is the call's `Date.now()`.
Returns the chronological list of the calls answered `allowed = true`
together with the stored log after the run. -/
def swlRun (cfg : SWLConfig) (log : List Time) :
    List Time → List Time × List Time
  | [] => ([], log)
  | now :: rest =>
    let step := swlCheck cfg now (some log)
    let tail := swlRun cfg step.2 rest
    (if step.1.allowed then now :: tail.1 else tail.1, tail.2)



/-! ## Helper lemmas -/

/-- The stored timestamp of a refilled token bucket is the refill time. -/
theorem refillBucket_lastRefill (cfg : TBConfig) (now : Time) (b : TBBucket) :
    (refillBucket cfg now b).lastRefill = now := rfl

/-- The stored timestamp of a leaked bucket is the leak time. -/
theorem leakFromBucket_lastLeak (cfg : LBConfig) (now : Time) (b : LBBucket) :
    (leakFromBucket cfg now b).lastLeak = now := rfl

theorem refillBucket_tokens_le (cfg : TBConfig) (now : Time) (b : TBBucket) :
    (refillBucket cfg now b).tokens ≤ cfg.capacity :=
  min_le_left _ _

theorem refillBucket_tokens_nonneg (cfg : TBConfig) (now : Time) (b : TBBucket)
    (hcap : 0 ≤ cfg.capacity) (hrate : 0 ≤ cfg.refillRate)
    (h0 : 0 ≤ b.tokens) (ht : b.lastRefill ≤ now) :
    0 ≤ (refillBucket cfg now b).tokens := by
  refine le_min hcap (add_nonneg h0 ?_)
  exact mul_nonneg (div_nonneg (sub_nonneg.2 ht) (by norm_num)) hrate

theorem leakFromBucket_size_nonneg (cfg : LBConfig) (now : Time) (b : LBBucket) :
    0 ≤ (leakFromBucket cfg now b).size :=
  le_max_left _ _

theorem leakFromBucket_size_le (cfg : LBConfig) (now : Time) (b : LBBucket)
    (hrate : 0 ≤ cfg.leakRate) (h0 : 0 ≤ b.size) (ht : b.lastLeak ≤ now) :
    (leakFromBucket cfg now b).size ≤ b.size := by
  refine max_le h0 (sub_le_self _ ?_)
  exact mul_nonneg (div_nonneg (sub_nonneg.2 ht) (by norm_num)) hrate

theorem min_min_add (cap a c : ℚ) (hc : 0 ≤ c) :
    min cap (min cap a + c) = min cap (a + c) := by
  rcases le_total a cap with h | h
  · rw [min_eq_right h]
  · rw [min_eq_left h, min_eq_left (le_add_of_nonneg_right hc),
      min_eq_left (le_add_of_nonneg_right hc |>.trans (by linarith))]

theorem max_zero_sub (a c : ℚ) (hc : 0 ≤ c) :
    max 0 (max 0 a - c) = max 0 (a - c) := by
  rcases le_total 0 a with h | h
  · rw [max_eq_right h]
  · rw [max_eq_left h, max_eq_left (by linarith), max_eq_left (by linarith)]

/-- Two successive refills at non-decreasing times collapse to the later
one. -/
theorem refillBucket_comp (cfg : TBConfig) (t1 t2 : Time) (b : TBBucket)
    (hrate : 0 ≤ cfg.refillRate) (h12 : t1 ≤ t2) :
    refillBucket cfg t2 (refillBucket cfg t1 b) = refillBucket cfg t2 b := by
  simp only [refillBucket]
  have hc : 0 ≤ (t2 - t1) / 1000 * cfg.refillRate :=
    mul_nonneg (div_nonneg (sub_nonneg.2 h12) (by norm_num)) hrate
  have h := min_min_add cfg.capacity
    (b.tokens + (t1 - b.lastRefill) / 1000 * cfg.refillRate)
    ((t2 - t1) / 1000 * cfg.refillRate) hc
  congr 1
  rw [h]
  congr 1
  ring

/-- Two successive leaks at non-decreasing times collapse to the later
one. -/
theorem leakFromBucket_comp (cfg : LBConfig) (t1 t2 : Time) (b : LBBucket)
    (hrate : 0 ≤ cfg.leakRate) (h12 : t1 ≤ t2) :
    leakFromBucket cfg t2 (leakFromBucket cfg t1 b) = leakFromBucket cfg t2 b := by
  simp only [leakFromBucket]
  have hc : 0 ≤ (t2 - t1) / 1000 * cfg.leakRate :=
    mul_nonneg (div_nonneg (sub_nonneg.2 h12) (by norm_num)) hrate
  have h := max_zero_sub
    (b.size - (t1 - b.lastLeak) / 1000 * cfg.leakRate)
    ((t2 - t1) / 1000 * cfg.leakRate) hc
  congr 1
  rw [h]
  congr 1
  ring

/-! ## C1: clock moved backward -/

/-- Claim C1 counterexample: with capacity 10 and rate 10/s, a stored bucket
whose timestamp is 2000 processed at now = 1000 (clock moved back one
second) LOSES 10 tokens to the refill step — tokens drop from 5 to -5,
below 0 — and the leaky bucket GAINS 10 units from the leak step — size
rises from 5 to 15, above the capacity 10.  The elapsed time is not clamped
to zero. -/
theorem C1_counterexample :
    ((refillBucket ⟨10, 10, 1⟩ 1000 ⟨5, 2000⟩).tokens = -5 ∧
      (refillBucket ⟨10, 10, 1⟩ 1000 ⟨5, 2000⟩).tokens < 5 ∧
      (refillBucket ⟨10, 10, 1⟩ 1000 ⟨5, 2000⟩).tokens < 0) ∧
    ((leakFromBucket ⟨10, 10⟩ 1000 ⟨5, 2000⟩).size = 15 ∧
      5 < (leakFromBucket ⟨10, 10⟩ 1000 ⟨5, 2000⟩).size ∧
      10 < (leakFromBucket ⟨10, 10⟩ 1000 ⟨5, 2000⟩).size) := by
  norm_num [refillBucket, leakFromBucket, min_def, max_def]

/-- Claim C1 (amended): the elapsed time is NOT clamped at zero.  Whenever
the stored timestamp is later than the current time and the rate is
positive, the Token Bucket refill step strictly decreases `tokens` (below 0
when enough time is involved) and the Leaky Bucket leak step strictly
increases `size` (above `capacity` likewise). -/
theorem C1_backward_clock_unclamped :
    (∀ (cfg : TBConfig) (now : Time) (b : TBBucket),
      now < b.lastRefill → 0 < cfg.refillRate → b.tokens ≤ cfg.capacity →
      (refillBucket cfg now b).tokens < b.tokens) ∧
    (∀ (cfg : LBConfig) (now : Time) (b : LBBucket),
      now < b.lastLeak → 0 < cfg.leakRate → 0 ≤ b.size →
      b.size < (leakFromBucket cfg now b).size) := by
  constructor
  · intro cfg now b hnow hrate hcap
    have hneg : (now - b.lastRefill) / 1000 * cfg.refillRate < 0 :=
      mul_neg_of_neg_of_pos (div_neg_of_neg_of_pos (by linarith) (by norm_num)) hrate
    simp only [refillBucket]
    rw [min_eq_right (by linarith)]
    linarith
  · intro cfg now b hnow hrate hsize
    have hneg : (now - b.lastLeak) / 1000 * cfg.leakRate < 0 :=
      mul_neg_of_neg_of_pos (div_neg_of_neg_of_pos (by linarith) (by norm_num)) hrate
    simp only [leakFromBucket]
    rw [max_eq_right (by linarith)]
    linarith

/-- Closed instance of `C1_backward_clock_unclamped` at the configuration
capacity 10, rate 10/s, stored timestamp 2000, current time 1000. -/
theorem C1_backward_clock_unclamped_witness :
    (refillBucket ⟨10, 10, 1⟩ 1000 ⟨5, 2000⟩).tokens < 5 ∧
    (5 : ℚ) < (leakFromBucket ⟨10, 10⟩ 1000 ⟨5, 2000⟩).size :=
  ⟨C1_backward_clock_unclamped.1 ⟨10, 10, 1⟩ 1000 ⟨5, 2000⟩ (by norm_num)
      (by norm_num) (by norm_num),
    C1_backward_clock_unclamped.2 ⟨10, 10⟩ 1000 ⟨5, 2000⟩ (by norm_num)
      (by norm_num) (by norm_num)⟩

/-! ## C2: LeakyBucket eviction sweep -/

/-- Claim C2: the LeakyBucket `cleanup` sweep never removes any entry.
`leakFromBucket` sets the entry's `lastLeak` to the sweep time before the
idle test reads it, so `idleTime = now - bucket.lastLeak` is always 0 and
the removal condition `size === 0 && idleTime > maxIdleTime` is never met.
In particular (second conjunct) a client that has been idle for 20 minutes
with a fully drained bucket — which the claim and the function's own
documentation say must be removed — is kept. -/
theorem C2_cleanup_never_removes :
    (∀ (cfg : LBConfig) (now : Time) (store : List (String × LBBucket)),
      lbCleanup cfg now store
        = store.map (fun e => (e.1, leakFromBucket cfg now e.2))) ∧
    lbCleanup ⟨10, 5⟩ 1200000 [("client-1", ⟨0, 0⟩)]
      = [("client-1", ⟨0, 1200000⟩)] := by
  have hgen : ∀ (cfg : LBConfig) (now : Time) (store : List (String × LBBucket)),
      lbCleanup cfg now store
        = store.map (fun e => (e.1, leakFromBucket cfg now e.2)) := by
    intro cfg now store
    rw [lbCleanup, List.filter_eq_self]
    intro e he
    obtain ⟨a, _, rfl⟩ := List.mem_map.1 he
    simp [leakFromBucket_lastLeak]
  refine ⟨hgen, ?_⟩
  rw [hgen]
  norm_num [leakFromBucket, max_def]

/-! ## C3: negative cost accepted without validation -/

/-- Claim C3 counterexample: `check` with cost -1 on a new client does not
signal any error.  Token Bucket: the call is an ordinary ALLOW decision and
the stored tokens move from the just-created 10 (full capacity) to 11,
mutating state above capacity.  Leaky Bucket: also an ordinary ALLOW
decision, and the stored size moves from the just-created 0 to -1. -/
theorem C3_counterexample :
    ((tbCheck ⟨10, 10, 1⟩ 0 none (-1)).1.allowed = true ∧
      (tbCheck ⟨10, 10, 1⟩ 0 none (-1)).2.tokens = 11 ∧
      (tbCheck ⟨10, 10, 1⟩ 0 none (-1)).2 ≠ (⟨10, 0⟩ : TBBucket)) ∧
    ((lbCheck ⟨10, 10⟩ 0 none (-1)).1.allowed = true ∧
      (lbCheck ⟨10, 10⟩ 0 none (-1)).2.size = -1 ∧
      (lbCheck ⟨10, 10⟩ 0 none (-1)).2 ≠ (⟨0, 0⟩ : LBBucket)) := by
  norm_num [tbCheck, lbCheck, refillBucket, leakFromBucket, min_def, max_def,
    TBBucket.mk.injEq, LBBucket.mk.injEq]

/-- Claim C3 (amended): `check` performs no validation of its cost argument.
A negative cost is processed like any other: the call is answered with an
ordinary ALLOW decision (`tokens ≥ cost` and `capacity - size ≥ cost` hold
trivially) and the state IS mutated — the Token Bucket's tokens rise above
`capacity` and the Leaky Bucket's size falls below 0.  (Non-finite costs
are outside the rational model; no code path inspects the cost either.) -/
theorem C3_negative_cost_unvalidated :
    ∀ (cfgT : TBConfig) (cfgL : LBConfig) (now : Time) (q : ℚ),
      q < 0 → 0 ≤ cfgT.capacity → 0 ≤ cfgL.capacity →
      ((tbCheck cfgT now none q).1.allowed = true ∧
        (tbCheck cfgT now none q).2.tokens = cfgT.capacity - q ∧
        cfgT.capacity < (tbCheck cfgT now none q).2.tokens) ∧
      ((lbCheck cfgL now none q).1.allowed = true ∧
        (lbCheck cfgL now none q).2.size = q ∧
        (lbCheck cfgL now none q).2.size < 0) := by
  intro cfgT cfgL now q hq hT hL
  have hrefill : refillBucket cfgT now ⟨cfgT.capacity, now⟩
      = ⟨cfgT.capacity, now⟩ := by
    simp [refillBucket]
  have hleak : leakFromBucket cfgL now ⟨0, now⟩ = ⟨0, now⟩ := by
    simp [leakFromBucket]
  constructor
  · simp only [tbCheck, Option.getD_none, hrefill]
    have hallow : q ≤ cfgT.capacity := by linarith
    simp [hallow]
    linarith
  · simp only [lbCheck, Option.getD_none, hleak]
    have hallow : q ≤ cfgL.capacity := by linarith
    simp [hallow, hq]

/-- Closed instance of `C3_negative_cost_unvalidated` at capacity 10,
rate 10/s, cost -1. -/
theorem C3_negative_cost_unvalidated_witness :
    (tbCheck ⟨10, 10, 1⟩ 0 none (-1)).1.allowed = true ∧
    (lbCheck ⟨10, 10⟩ 0 none (-1)).2.size < 0 :=
  ⟨(C3_negative_cost_unvalidated ⟨10, 10, 1⟩ ⟨10, 10⟩ 0 (-1) (by norm_num)
      (by norm_num) (by norm_num)).1.1,
    (C3_negative_cost_unvalidated ⟨10, 10, 1⟩ ⟨10, 10⟩ 0 (-1) (by norm_num)
      (by norm_num) (by norm_num)).2.2.2⟩

/-! ## C8: constructors perform no validation -/

/-- Claim C8 counterexample: construction with a negative capacity succeeds
— the value -5 is stored as the capacity — and construction with a zero
window and negative maxRequests also succeeds, the JavaScript-falsy 0
silently replaced by the default 60000 and -3 stored as is.  No
configuration error is signalled at construction time. -/
theorem C8_counterexample :
    tokenBucketConstructor { capacity := some (-5) } = .ok ⟨-5, 10, 1⟩ ∧
    fixedWindowConstructor { windowMs := some 0, maxRequests := some (-3) }
      = .ok ⟨60000, -3⟩ := by
  norm_num [tokenBucketConstructor, fixedWindowConstructor, jsOrDefault]

/-- Claim C8 (amended): the constructors perform no validation and never
fail.  Every options object yields an `ok` configuration; a zero (falsy)
field is silently replaced by the default, and a negative field is stored
unchanged, so the non-positive-configuration error required by the claim is
never signalled (and `check`, a total function, signals none either). -/
theorem C8_constructors_never_fail :
    (∀ o : TBOptions, ∃ cfg, tokenBucketConstructor o = .ok cfg) ∧
    (∀ o : FWOptions, ∃ cfg, fixedWindowConstructor o = .ok cfg) ∧
    (∀ q : ℚ, q < 0 →
      tokenBucketConstructor { capacity := some q } = .ok ⟨q, 10, 1⟩) ∧
    tokenBucketConstructor { capacity := some 0 } = .ok ⟨100, 10, 1⟩ := by
  refine ⟨fun o => ⟨_, rfl⟩, fun o => ⟨_, rfl⟩, ?_, ?_⟩
  · intro q hq
    have : q ≠ 0 := ne_of_lt hq
    simp [tokenBucketConstructor, jsOrDefault, this]
  · simp [tokenBucketConstructor, jsOrDefault]

/-- Closed instance of `C8_constructors_never_fail` at capacity -2. -/
theorem C8_constructors_never_fail_witness :
    tokenBucketConstructor { capacity := some (-2) } = .ok ⟨-2, 10, 1⟩ :=
  C8_constructors_never_fail.2.2.1 (-2) (by norm_num)


/-! ## Decision-field and state-bound lemmas -/

theorem tbCheck_bucket_spec (cfg : TBConfig) (now : Time) (stored : Option TBBucket)
    (cost : ℚ) (hcap : 0 ≤ cfg.capacity) (hrate : 0 ≤ cfg.refillRate)
    (hstored : ∀ b, stored = some b → 0 ≤ b.tokens ∧ b.lastRefill ≤ now) :
    0 ≤ (tbCheck cfg now stored cost).2.tokens ∧
      (0 ≤ cost → (tbCheck cfg now stored cost).2.tokens ≤ cfg.capacity) ∧
      (tbCheck cfg now stored cost).2.lastRefill = now := by
  have hb0 : 0 ≤ (stored.getD ⟨cfg.capacity, now⟩).tokens ∧
      (stored.getD ⟨cfg.capacity, now⟩).lastRefill ≤ now := by
    cases stored with
    | none => exact ⟨hcap, le_refl now⟩
    | some b => simpa using hstored b rfl
  have h1n : 0 ≤ (refillBucket cfg now (stored.getD ⟨cfg.capacity, now⟩)).tokens :=
    refillBucket_tokens_nonneg cfg now _ hcap hrate hb0.1 hb0.2
  have h1le : (refillBucket cfg now (stored.getD ⟨cfg.capacity, now⟩)).tokens ≤ cfg.capacity :=
    refillBucket_tokens_le cfg now _
  by_cases hallow : cost ≤ (refillBucket cfg now (stored.getD ⟨cfg.capacity, now⟩)).tokens
  · refine ⟨?_, fun hc => ?_, ?_⟩ <;> simp [tbCheck, hallow, refillBucket_lastRefill] <;> linarith
  · refine ⟨?_, fun hc => ?_, ?_⟩ <;> simp [tbCheck, hallow, refillBucket_lastRefill] <;> linarith

theorem lbCheck_bucket_spec (cfg : LBConfig) (now : Time) (stored : Option LBBucket)
    (cost : ℚ) (hcap : 0 ≤ cfg.capacity) (hrate : 0 ≤ cfg.leakRate)
    (hstored : ∀ b, stored = some b →
      0 ≤ b.size ∧ b.size ≤ cfg.capacity ∧ b.lastLeak ≤ now) :
    (0 ≤ cost → 0 ≤ (lbCheck cfg now stored cost).2.size) ∧
      (lbCheck cfg now stored cost).2.size ≤ cfg.capacity ∧
      (lbCheck cfg now stored cost).2.lastLeak = now := by
  have hb0 : 0 ≤ (stored.getD ⟨0, now⟩).size ∧
      (stored.getD ⟨0, now⟩).size ≤ cfg.capacity ∧
      (stored.getD ⟨0, now⟩).lastLeak ≤ now := by
    cases stored with
    | none => exact ⟨le_refl 0, hcap, le_refl now⟩
    | some b => simpa using hstored b rfl
  have h1n : 0 ≤ (leakFromBucket cfg now (stored.getD ⟨0, now⟩)).size :=
    leakFromBucket_size_nonneg cfg now _
  have h1le : (leakFromBucket cfg now (stored.getD ⟨0, now⟩)).size ≤ cfg.capacity :=
    (leakFromBucket_size_le cfg now _ hrate hb0.1 hb0.2.2).trans hb0.2.1
  by_cases hallow : cost ≤ cfg.capacity - (leakFromBucket cfg now (stored.getD ⟨0, now⟩)).size
  · refine ⟨fun hc => ?_, ?_, ?_⟩ <;> simp [lbCheck, hallow, leakFromBucket_lastLeak] <;> linarith
  · refine ⟨fun hc => ?_, ?_, ?_⟩ <;> simp [lbCheck, hallow, leakFromBucket_lastLeak] <;> linarith

theorem tbCheck_allowed_retryAfter (cfg : TBConfig) (now : Time)
    (stored : Option TBBucket) (cost : ℚ) :
    (tbCheck cfg now stored cost).1.allowed = true →
      (tbCheck cfg now stored cost).1.retryAfter = 0 := by
  by_cases h : cost ≤ (refillBucket cfg now (stored.getD ⟨cfg.capacity, now⟩)).tokens <;>
    simp [tbCheck, h]

theorem lbCheck_allowed_retryAfter (cfg : LBConfig) (now : Time)
    (stored : Option LBBucket) (cost : ℚ) :
    (lbCheck cfg now stored cost).1.allowed = true →
      (lbCheck cfg now stored cost).1.retryAfter = 0 := by
  by_cases h : cost ≤ cfg.capacity - (leakFromBucket cfg now (stored.getD ⟨0, now⟩)).size <;>
    simp [lbCheck, h]

theorem swlCheck_allowed_retryAfter (cfg : SWLConfig) (now : Time)
    (stored : Option (List Time)) :
    (swlCheck cfg now stored).1.allowed = true →
      (swlCheck cfg now stored).1.retryAfter = 0 := by
  by_cases h : ((cleanLog cfg (stored.getD []) now).length : ℚ) < cfg.maxRequests <;>
    simp [swlCheck, h]

theorem tbCheck_remaining_floor (cfg : TBConfig) (now : Time)
    (stored : Option TBBucket) (cost : ℚ) :
    (tbCheck cfg now stored cost).1.remaining
      = jsFloor (tbCheck cfg now stored cost).2.tokens := by
  by_cases h : cost ≤ (refillBucket cfg now (stored.getD ⟨cfg.capacity, now⟩)).tokens <;>
    simp [tbCheck, h]
theorem lbCheck_remaining_floor (cfg : LBConfig) (now : Time)
    (stored : Option LBBucket) (cost : ℚ) :
    (lbCheck cfg now stored cost).1.remaining
      = jsFloor (cfg.capacity - (leakFromBucket cfg now (stored.getD ⟨0, now⟩)).size) := by
  by_cases h : cost ≤ cfg.capacity - (leakFromBucket cfg now (stored.getD ⟨0, now⟩)).size <;>
    simp [lbCheck, h]

/-- Claim C6 counterexample: the FixedWindow decision object carries no
`retryAfter` property at all (reading it yields `undefined`), and a
TokenBucket check made while the clock has moved backward (stored
`lastRefill` 2000, now 1000) reports `remaining = -10 < 0`. -/
theorem C6_counterexample :
    (fwCheck ⟨1000, 5⟩ 0 none).1.retryAfterProp = none ∧
    (tbCheck ⟨10, 10, 1⟩ 1000 (some ⟨0, 2000⟩) 1).1.remaining = -10 ∧
    (tbCheck ⟨10, 10, 1⟩ 1000 (some ⟨0, 2000⟩) 1).1.remaining < 0 := by
  refine ⟨rfl, ?_, ?_⟩ <;>
    norm_num [tbCheck, refillBucket, min_def, jsFloor]

/-- Claim C6 (amended): decisions report `remaining ≥ 0` and a zero
`retryAfter` when allowed, with two code-forced exceptions: the FixedWindow
decision has no `retryAfter` field, and the two bucket engines guarantee
`remaining ≥ 0` only when the stored record satisfies its `[0, capacity]`
invariant and the clock has not moved backward past it. -/
theorem C6_decision_fields :
    (∀ (cfg : FWConfig) (now : Time) (stored : Option FWClient),
      0 ≤ (fwCheck cfg now stored).1.remaining ∧
        (fwCheck cfg now stored).1.retryAfterProp = none) ∧
    (∀ (cfg : SWLConfig) (now : Time) (stored : Option (List Time)),
      0 ≤ (swlCheck cfg now stored).1.remaining ∧
        ((swlCheck cfg now stored).1.allowed = true →
          (swlCheck cfg now stored).1.retryAfter = 0)) ∧
    (∀ (cfg : TBConfig) (now : Time) (stored : Option TBBucket) (cost : ℚ),
      0 ≤ cfg.capacity → 0 ≤ cfg.refillRate →
      (∀ b, stored = some b → 0 ≤ b.tokens ∧ b.lastRefill ≤ now) →
      0 ≤ (tbCheck cfg now stored cost).1.remaining ∧
        ((tbCheck cfg now stored cost).1.allowed = true →
          (tbCheck cfg now stored cost).1.retryAfter = 0)) ∧
    (∀ (cfg : LBConfig) (now : Time) (stored : Option LBBucket) (cost : ℚ),
      0 ≤ cfg.capacity → 0 ≤ cfg.leakRate →
      (∀ b, stored = some b →
        0 ≤ b.size ∧ b.size ≤ cfg.capacity ∧ b.lastLeak ≤ now) →
      0 ≤ (lbCheck cfg now stored cost).1.remaining ∧
        ((lbCheck cfg now stored cost).1.allowed = true →
          (lbCheck cfg now stored cost).1.retryAfter = 0)) := by
  refine ⟨?_, ?_, ?_, ?_⟩
  · intro cfg now stored
    refine ⟨?_, rfl⟩
    simp only [fwCheck]
    exact le_max_left _ _
  · intro cfg now stored
    refine ⟨?_, swlCheck_allowed_retryAfter cfg now stored⟩
    simp only [swlCheck]
    exact le_max_left _ _
  · intro cfg now stored cost hcap hrate hstored
    refine ⟨?_, tbCheck_allowed_retryAfter cfg now stored cost⟩
    rw [tbCheck_remaining_floor]
    exact Int.floor_nonneg.2 (tbCheck_bucket_spec cfg now stored cost hcap hrate hstored).1
  · intro cfg now stored cost hcap hrate hstored
    refine ⟨?_, lbCheck_allowed_retryAfter cfg now stored cost⟩
    rw [lbCheck_remaining_floor]
    refine Int.floor_nonneg.2 (sub_nonneg.2 ?_)
    have hb0 : 0 ≤ (stored.getD ⟨0, now⟩).size ∧
        (stored.getD ⟨0, now⟩).size ≤ cfg.capacity ∧
        (stored.getD ⟨0, now⟩).lastLeak ≤ now := by
      cases stored with
      | none => exact ⟨le_refl 0, hcap, le_refl now⟩
      | some b => simpa using hstored b rfl
    exact (leakFromBucket_size_le cfg now _ hrate hb0.1 hb0.2.2).trans hb0.2.1

/-- Closed instance of `C6_decision_fields` with in-range stored records at
time 1000 (TokenBucket and LeakyBucket) and a fresh FixedWindow client. -/
theorem C6_decision_fields_witness :
    0 ≤ (tbCheck ⟨10, 10, 1⟩ 1000 (some ⟨3, 500⟩) 1).1.remaining ∧
    0 ≤ (lbCheck ⟨10, 10⟩ 1000 (some ⟨3, 500⟩) 1).1.remaining ∧
    0 ≤ (fwCheck ⟨1000, 5⟩ 0 none).1.remaining :=
  ⟨(C6_decision_fields.2.2.1 ⟨10, 10, 1⟩ 1000 (some ⟨3, 500⟩) 1 (by norm_num)
      (by norm_num) (by intro b hb; cases hb; exact ⟨by norm_num, by norm_num⟩)).1,
    (C6_decision_fields.2.2.2 ⟨10, 10⟩ 1000 (some ⟨3, 500⟩) 1 (by norm_num)
      (by norm_num)
      (by intro b hb; cases hb; exact ⟨by norm_num, by norm_num, by norm_num⟩)).1,
    (C6_decision_fields.1 ⟨1000, 5⟩ 0 none).1⟩

/-- Claim C7 counterexample: `getBucketState` does NOT leave the stored
record as it was.  With capacity 10 and rate 10/s, describing a client
stored as tokens 9 / lastRefill 0 at time 500 rewrites the record (to
tokens 10 / lastRefill 500); the LeakyBucket analogue rewrites
size 9 / lastLeak 0 to size 4 / lastLeak 500. -/
theorem C7_counterexample :
    (tbGetBucketState ⟨10, 10, 1⟩ 500 (some ⟨9, 0⟩)).2 ≠ some (⟨9, 0⟩ : TBBucket) ∧
    (lbGetBucketState ⟨10, 10⟩ 500 (some ⟨9, 0⟩)).2 ≠ some (⟨9, 0⟩ : LBBucket) := by
  norm_num [tbGetBucketState, lbGetBucketState, refillBucket, leakFromBucket,
    min_def, max_def, TBBucket.mk.injEq, LBBucket.mk.injEq]

/-- Claim C7 (amended): `getLogState` of the SlidingWindowLog engine is
read-only (the store is returned unchanged), while `getBucketState` of the
two bucket engines advances the stored record to the describe time; under a
non-decreasing clock this advance is decision-preserving — a later `check`
returns exactly the same decision and stored state with or without the
intervening describe. -/
theorem C7_describe_state_effect :
    (∀ (cfg : SWLConfig) (now : Time) (stored : Option (List Time)),
      (swlGetLogState cfg now stored).2 = stored) ∧
    (∀ (cfg : TBConfig) (t1 t2 : Time) (b : TBBucket) (cost : ℚ),
      0 ≤ cfg.refillRate → t1 ≤ t2 →
      tbCheck cfg t2 (tbGetBucketState cfg t1 (some b)).2 cost
        = tbCheck cfg t2 (some b) cost) ∧
    (∀ (cfg : LBConfig) (t1 t2 : Time) (b : LBBucket) (cost : ℚ),
      0 ≤ cfg.leakRate → t1 ≤ t2 →
      lbCheck cfg t2 (lbGetBucketState cfg t1 (some b)).2 cost
        = lbCheck cfg t2 (some b) cost) := by
  refine ⟨?_, ?_, ?_⟩
  · intro cfg now stored
    cases stored <;> rfl
  · intro cfg t1 t2 b cost hrate h12
    have h := refillBucket_comp cfg t1 t2 b hrate h12
    simp only [tbGetBucketState, tbCheck, Option.getD_some, h]
  · intro cfg t1 t2 b cost hrate h12
    have h := leakFromBucket_comp cfg t1 t2 b hrate h12
    simp only [lbGetBucketState, lbCheck, Option.getD_some, h]

/-- Closed instance of `C7_describe_state_effect`: a describe at time 500
between a store at tokens 9 / lastRefill 0 and a check at time 1000 does
not change the check's outcome. -/
theorem C7_describe_state_effect_witness :
    tbCheck ⟨10, 10, 1⟩ 1000 (tbGetBucketState ⟨10, 10, 1⟩ 500 (some ⟨9, 0⟩)).2 1
      = tbCheck ⟨10, 10, 1⟩ 1000 (some ⟨9, 0⟩) 1 :=
  C7_describe_state_effect.2.1 ⟨10, 10, 1⟩ 500 1000 ⟨9, 0⟩ 1 (by norm_num) (by norm_num)


/-! ## Run invariants -/

theorem tbRun_bounds_aux (cfg : TBConfig) (hcap : 0 ≤ cfg.capacity)
    (hrate : 0 ≤ cfg.refillRate) :
    ∀ (events : List (Time × ℚ)) (b : TBBucket),
      0 ≤ b.tokens → b.tokens ≤ cfg.capacity →
      (b.lastRefill :: events.map Prod.fst).Chain' (· ≤ ·) →
      (∀ e ∈ events, 0 ≤ e.2) →
      ∀ b', tbRun cfg (some b) events = some b' →
        0 ≤ b'.tokens ∧ b'.tokens ≤ cfg.capacity := by
  intro events
  induction events with
  | nil =>
    intro b h0 h1 _ _ b' hb'
    simp only [tbRun, Option.some.injEq] at hb'
    subst hb'
    exact ⟨h0, h1⟩
  | cons e rest ih =>
    intro b h0 h1 hchain hcost b' hb'
    obtain ⟨now, cost⟩ := e
    simp only [List.map_cons] at hchain
    obtain ⟨hlr, hchain'⟩ := List.chain'_cons.1 hchain
    simp only [tbRun] at hb'
    have hspec := tbCheck_bucket_spec cfg now (some b) cost hcap hrate
      (by intro b0 hb0; cases hb0; exact ⟨h0, hlr⟩)
    refine ih (tbCheck cfg now (some b) cost).2 hspec.1
      (hspec.2.1 (hcost (now, cost) (List.mem_cons_self _ _)))
      ?_ (fun e he => hcost e (List.mem_cons_of_mem _ he)) b' hb'
    rw [hspec.2.2]
    exact hchain'

theorem lbRun_bounds_aux (cfg : LBConfig) (hcap : 0 ≤ cfg.capacity)
    (hrate : 0 ≤ cfg.leakRate) :
    ∀ (events : List (Time × ℚ)) (b : LBBucket),
      0 ≤ b.size → b.size ≤ cfg.capacity →
      (b.lastLeak :: events.map Prod.fst).Chain' (· ≤ ·) →
      (∀ e ∈ events, 0 ≤ e.2) →
      ∀ b', lbRun cfg (some b) events = some b' →
        0 ≤ b'.size ∧ b'.size ≤ cfg.capacity := by
  intro events
  induction events with
  | nil =>
    intro b h0 h1 _ _ b' hb'
    simp only [lbRun, Option.some.injEq] at hb'
    subst hb'
    exact ⟨h0, h1⟩
  | cons e rest ih =>
    intro b h0 h1 hchain hcost b' hb'
    obtain ⟨now, cost⟩ := e
    simp only [List.map_cons] at hchain
    obtain ⟨hll, hchain'⟩ := List.chain'_cons.1 hchain
    simp only [lbRun] at hb'
    have hspec := lbCheck_bucket_spec cfg now (some b) cost hcap hrate
      (by intro b0 hb0; cases hb0; exact ⟨h0, h1, hll⟩)
    refine ih (lbCheck cfg now (some b) cost).2
      (hspec.1 (hcost (now, cost) (List.mem_cons_self _ _)))
      hspec.2.1
      ?_ (fun e he => hcost e (List.mem_cons_of_mem _ he)) b' hb'
    rw [hspec.2.2]
    exact hchain'

/-- Claim C4: under a non-decreasing clock and non-negative costs, the
Token Bucket's stored `tokens` stays within `[0, capacity]` over every
sequence of `check` calls, and symmetrically the Leaky Bucket's `size`
stays within `[0, capacity]`; moreover the refill step performed by a call
`t` seconds (`1000 t` milliseconds) after the previous one computes exactly
`tokens = min(capacity, priorTokens + t * refillRate)`, which is the value
`check` observes before consumption. -/
theorem C4_conservation :
    (∀ (cfg : TBConfig) (events : List (Time × ℚ)) (b' : TBBucket),
      0 ≤ cfg.capacity → 0 ≤ cfg.refillRate →
      (events.map Prod.fst).Chain' (· ≤ ·) →
      (∀ e ∈ events, 0 ≤ e.2) →
      tbRun cfg none events = some b' →
      0 ≤ b'.tokens ∧ b'.tokens ≤ cfg.capacity) ∧
    (∀ (cfg : LBConfig) (events : List (Time × ℚ)) (b' : LBBucket),
      0 ≤ cfg.capacity → 0 ≤ cfg.leakRate →
      (events.map Prod.fst).Chain' (· ≤ ·) →
      (∀ e ∈ events, 0 ≤ e.2) →
      lbRun cfg none events = some b' →
      0 ≤ b'.size ∧ b'.size ≤ cfg.capacity) ∧
    (∀ (cfg : TBConfig) (t0 : Time) (prior t : ℚ),
      (refillBucket cfg (t0 + 1000 * t) ⟨prior, t0⟩).tokens
        = min cfg.capacity (prior + t * cfg.refillRate)) := by
  refine ⟨?_, ?_, ?_⟩
  · intro cfg events b' hcap hrate hchain hcost hrun
    cases events with
    | nil => simp [tbRun] at hrun
    | cons e rest =>
      obtain ⟨now, cost⟩ := e
      simp only [tbRun] at hrun
      simp only [List.map_cons] at hchain
      have hspec := tbCheck_bucket_spec cfg now none cost hcap hrate
        (by intro b0 hb0; cases hb0)
      refine tbRun_bounds_aux cfg hcap hrate rest (tbCheck cfg now none cost).2
        hspec.1 (hspec.2.1 (hcost (now, cost) (List.mem_cons_self _ _)))
        ?_ (fun e he => hcost e (List.mem_cons_of_mem _ he)) b' hrun
      rw [hspec.2.2]
      exact hchain
  · intro cfg events b' hcap hrate hchain hcost hrun
    cases events with
    | nil => simp [lbRun] at hrun
    | cons e rest =>
      obtain ⟨now, cost⟩ := e
      simp only [lbRun] at hrun
      simp only [List.map_cons] at hchain
      have hspec := lbCheck_bucket_spec cfg now none cost hcap hrate
        (by intro b0 hb0; cases hb0)
      refine lbRun_bounds_aux cfg hcap hrate rest (lbCheck cfg now none cost).2
        (hspec.1 (hcost (now, cost) (List.mem_cons_self _ _))) hspec.2.1
        ?_ (fun e he => hcost e (List.mem_cons_of_mem _ he)) b' hrun
      rw [hspec.2.2]
      exact hchain
  · intro cfg t0 prior t
    simp only [refillBucket]
    congr 1
    ring

/-- Closed instance of `C4_conservation`: with capacity 10 and rate 10/s, a
fresh client that pays cost 1 at time 0 and cost 2 at time 1000 is stored
with 8 tokens, inside `[0, 10]`. -/
theorem C4_conservation_witness :
    0 ≤ (8 : ℚ) ∧ (8 : ℚ) ≤ (10 : ℚ) :=
  C4_conservation.1 ⟨10, 10, 1⟩ [(0, 1), (1000, 2)] ⟨8, 1000⟩ (by norm_num)
    (by norm_num)
    (by norm_num [List.chain'_cons])
    (by intro e he; simp at he; rcases he with rfl | rfl <;> norm_num)
    (by norm_num [tbRun, tbCheck, refillBucket, min_def])

theorem swlCheck_log_length (cfg : SWLConfig) (now : Time) (log : List Time)
    (m : ℕ) (hm : cfg.maxRequests = (m : ℚ)) (h : log.length ≤ m) :
    (swlCheck cfg now (some log)).2.length ≤ m := by
  by_cases hallow : ((cleanLog cfg log now).length : ℚ) < cfg.maxRequests
  · have hlt : (cleanLog cfg log now).length < m := by
      rw [hm, Nat.cast_lt] at hallow
      exact hallow
    simp only [swlCheck, Option.getD_some, hallow, decide_eq_true_eq]
    simp [hallow]
    omega
  · simp only [swlCheck, Option.getD_some]
    simp [hallow]
    exact le_trans (List.length_filter_le _ _) h

theorem swlRun_log_bound (cfg : SWLConfig) (m : ℕ) (hm : cfg.maxRequests = (m : ℚ)) :
    ∀ (events log : List Time), log.length ≤ m →
      ((swlRun cfg log events).2).length ≤ m := by
  intro events
  induction events with
  | nil =>
    intro log h
    simpa [swlRun] using h
  | cons now rest ih =>
    intro log h
    simp only [swlRun]
    exact ih _ (swlCheck_log_length cfg now log m hm h)

/-- Claim C10: for every window size, every natural request limit `m` and
every sequence of `check` call times, the stored timestamp log of a client
of the Sliding-Window Log limiter never exceeds `m` entries — a timestamp
is appended only when the compacted count is strictly below the limit, so
per-client memory is bounded regardless of traffic. -/
theorem C10_log_bounded (W : ℚ) (m : ℕ) (events : List Time) :
    ((swlRun ⟨W, (m : ℚ)⟩ [] events).2).length ≤ m :=
  swlRun_log_bound ⟨W, (m : ℚ)⟩ m rfl events [] (Nat.zero_le m)

/-! ## Sliding-window counting -/

/-- Filtering with a pointwise stronger predicate yields at most as many
elements. -/
theorem length_filter_le_filter {α : Type} (l : List α) (p q : α → Bool)
    (h : ∀ a ∈ l, p a = true → q a = true) :
    (l.filter p).length ≤ (l.filter q).length := by
  induction l with
  | nil => simp
  | cons a t ih =>
    have ht : ∀ x ∈ t, p x = true → q x = true :=
      fun x hx => h x (List.mem_cons_of_mem a hx)
    simp only [List.filter_cons]
    by_cases hp : p a = true
    · rw [if_pos hp, if_pos (h a (List.mem_cons_self a t) hp)]
      simpa using ih ht
    · rw [if_neg hp]
      by_cases hq : q a = true
      · rw [if_pos hq]
        exact (ih ht).trans (by simp)
      · rw [if_neg hq]
        exact ih ht

theorem swlRun_sliding_aux (cfg : SWLConfig) (m : ℕ) (hW : 0 < cfg.windowMs)
    (hm : cfg.maxRequests = (m : ℚ)) :
    ∀ (events A log : List Time) (tcur : Time),
      log = A.filter (fun s => decide (tcur - cfg.windowMs < s)) →
      (∀ s ∈ A, s ≤ tcur) →
      (tcur :: events).Chain' (· ≤ ·) →
      (∀ T : Time,
        (A.filter (fun s => decide (T - cfg.windowMs < s ∧ s ≤ T))).length ≤ m) →
      ∀ T : Time,
        ((A ++ (swlRun cfg log events).1).filter
          (fun s => decide (T - cfg.windowMs < s ∧ s ≤ T))).length ≤ m := by
  intro events
  induction events with
  | nil =>
    intro A log tcur hlog hA hchain hcount T
    simpa [swlRun] using hcount T
  | cons now rest ih =>
    intro A log tcur hlog hA hchain hcount T
    obtain ⟨hts, hchain'⟩ := List.chain'_cons.1 hchain
    have hclean : cleanLog cfg log now
        = A.filter (fun s => decide (now - cfg.windowMs < s)) := by
      rw [hlog]
      simp only [cleanLog, List.filter_filter]
      refine List.filter_congr ?_
      intro s hs
      by_cases h1 : now - cfg.windowMs < s
      · have h2 : tcur - cfg.windowMs < s := by linarith
        simp [h1, h2]
      · simp [h1]
    have hA' : ∀ s ∈ A ++ [now], s ≤ now := by
      intro s hs
      rcases List.mem_append.1 hs with hs | hs
      · exact (hA s hs).trans hts
      · simp at hs
        exact hs.le
    simp only [swlRun, swlCheck, Option.getD_some]
    by_cases hallow : ((cleanLog cfg log now).length : ℚ) < cfg.maxRequests
    · simp only [hallow, decide_True, if_true]
      have hlog' : cleanLog cfg log now ++ [now]
          = (A ++ [now]).filter (fun s => decide (now - cfg.windowMs < s)) := by
        rw [List.filter_append, hclean]
        congr 1
        have hself : decide (now - cfg.windowMs < now) = true := by
          simp only [decide_eq_true_eq]
          linarith
        simp [List.filter_cons, hself, hW]
      have hmlt : (cleanLog cfg log now).length < m := by
        rw [hm, Nat.cast_lt] at hallow
        exact hallow
      rw [hclean] at hmlt
      have hcount' : ∀ T2 : Time, ((A ++ [now]).filter
          (fun s => decide (T2 - cfg.windowMs < s ∧ s ≤ T2))).length ≤ m := by
        intro T2
        rw [List.filter_append, List.length_append]
        by_cases hin : T2 - cfg.windowMs < now ∧ now ≤ T2
        · have h1 : (A.filter (fun s => decide (T2 - cfg.windowMs < s ∧ s ≤ T2))).length
              ≤ (A.filter (fun s => decide (now - cfg.windowMs < s))).length := by
            refine length_filter_le_filter A _ _ ?_
            intro a ha hpa
            simp only [decide_eq_true_eq] at hpa ⊢
            obtain ⟨hpa1, hpa2⟩ := hpa
            have hnT : now ≤ T2 := hin.2
            linarith
          have h3 : (([now] : List Time).filter
              (fun s => decide (T2 - cfg.windowMs < s ∧ s ≤ T2))).length ≤ 1 := by
            simpa using List.length_filter_le _ [now]
          omega
        · have h3 : (([now] : List Time).filter
              (fun s => decide (T2 - cfg.windowMs < s ∧ s ≤ T2))).length = 0 := by
            simp [List.filter_cons, hin]
          rw [h3]
          simpa using hcount T2
      have hkey := ih (A ++ [now]) (cleanLog cfg log now ++ [now]) now hlog'
        hA' hchain' hcount'
      have hsplit : A ++ now :: (swlRun cfg (cleanLog cfg log now ++ [now]) rest).1
          = (A ++ [now]) ++ (swlRun cfg (cleanLog cfg log now ++ [now]) rest).1 := by
        simp
      rw [hsplit]
      exact hkey T
    · simp only [hallow, decide_False, Bool.false_eq_true, if_false]
      exact ih A (cleanLog cfg log now) now hclean
        (fun s hs => (hA s hs).trans hts) hchain' hcount T
/-- Claim C5: Sliding-Window Log admits at most `maxRequests` calls in any
trailing window of length `windowMs`: over every sequence of `check` calls
at non-decreasing times starting from a fresh client, the number of calls
answered `allowed = true` whose timestamps lie in the interval
`(T - windowMs, T]` is at most `maxRequests`, for every `T` — including
windows straddling any boundary. -/
theorem C5_no_boundary_overshoot (W : ℚ) (m : ℕ) (events : List Time) (T : Time)
    (hW : 0 < W) (hchain : events.Chain' (· ≤ ·)) :
    ((swlRun ⟨W, (m : ℚ)⟩ [] events).1.filter
      (fun s => decide (T - W < s ∧ s ≤ T))).length ≤ m := by
  have hchain0 : (events.headD 0 :: events).Chain' (· ≤ ·) := by
    cases events with
    | nil => simp
    | cons a l => exact List.chain'_cons.2 ⟨le_refl a, hchain⟩
  have h := swlRun_sliding_aux ⟨W, (m : ℚ)⟩ m hW rfl events [] [] (events.headD 0)
    (by simp) (by simp) hchain0 (by simp) T
  simpa using h

/-- Closed instance of `C5_no_boundary_overshoot`: window 1000 ms, limit 2,
three simultaneous calls, trailing window ending at time 1000. -/
theorem C5_no_boundary_overshoot_witness :
    ((swlRun ⟨1000, ((2 : ℕ) : ℚ)⟩ [] [0, 0, 0]).1.filter
      (fun s => decide ((1000 : ℚ) - 1000 < s ∧ s ≤ 1000))).length ≤ 2 :=
  C5_no_boundary_overshoot 1000 2 [0, 0, 0] 1000 (by norm_num)
    (by simp [List.chain'_cons])

/-- Claim C9: FixedWindow with windowMs 1000 and maxRequests 5 — any five
calls for a new client whose timestamps fall in the same window are allowed
with `remaining` 4, 3, 2, 1, 0 in order, and a sixth call in the same
window is denied with `remaining` 0. -/
theorem C9_fixed_window_scenario (t1 t2 t3 t4 t5 t6 : Time)
    (h2 : getCurrentWindowStart ⟨1000, 5⟩ t2 = getCurrentWindowStart ⟨1000, 5⟩ t1)
    (h3 : getCurrentWindowStart ⟨1000, 5⟩ t3 = getCurrentWindowStart ⟨1000, 5⟩ t1)
    (h4 : getCurrentWindowStart ⟨1000, 5⟩ t4 = getCurrentWindowStart ⟨1000, 5⟩ t1)
    (h5 : getCurrentWindowStart ⟨1000, 5⟩ t5 = getCurrentWindowStart ⟨1000, 5⟩ t1)
    (h6 : getCurrentWindowStart ⟨1000, 5⟩ t6 = getCurrentWindowStart ⟨1000, 5⟩ t1) :
    (fwRun ⟨1000, 5⟩ none [t1, t2, t3, t4, t5, t6]).1.map
        (fun d => (d.allowed, d.remaining))
      = [(true, 4), (true, 3), (true, 2), (true, 1), (true, 0), (false, 0)] := by
  set w := getCurrentWindowStart ⟨1000, 5⟩ t1 with hw
  have s1 : (fwCheck ⟨1000, 5⟩ t1 none).2 = ⟨1, w⟩ ∧
      (fwCheck ⟨1000, 5⟩ t1 none).1.allowed = true ∧
      (fwCheck ⟨1000, 5⟩ t1 none).1.remaining = 4 := by
    refine ⟨?_, ?_, ?_⟩ <;>
      simp only [fwCheck, Option.getD_none, lt_self_iff_false, if_false] <;>
      norm_num [max_def]
  have s2 : (fwCheck ⟨1000, 5⟩ t2 (some ⟨1, w⟩)).2 = ⟨2, w⟩ ∧
      (fwCheck ⟨1000, 5⟩ t2 (some ⟨1, w⟩)).1.allowed = true ∧
      (fwCheck ⟨1000, 5⟩ t2 (some ⟨1, w⟩)).1.remaining = 3 := by
    refine ⟨?_, ?_, ?_⟩ <;>
      simp only [fwCheck, Option.getD_some, h2, ← hw, lt_self_iff_false, if_false] <;>
      norm_num [max_def]
  have s3 : (fwCheck ⟨1000, 5⟩ t3 (some ⟨2, w⟩)).2 = ⟨3, w⟩ ∧
      (fwCheck ⟨1000, 5⟩ t3 (some ⟨2, w⟩)).1.allowed = true ∧
      (fwCheck ⟨1000, 5⟩ t3 (some ⟨2, w⟩)).1.remaining = 2 := by
    refine ⟨?_, ?_, ?_⟩ <;>
      simp only [fwCheck, Option.getD_some, h3, ← hw, lt_self_iff_false, if_false] <;>
      norm_num [max_def]
  have s4 : (fwCheck ⟨1000, 5⟩ t4 (some ⟨3, w⟩)).2 = ⟨4, w⟩ ∧
      (fwCheck ⟨1000, 5⟩ t4 (some ⟨3, w⟩)).1.allowed = true ∧
      (fwCheck ⟨1000, 5⟩ t4 (some ⟨3, w⟩)).1.remaining = 1 := by
    refine ⟨?_, ?_, ?_⟩ <;>
      simp only [fwCheck, Option.getD_some, h4, ← hw, lt_self_iff_false, if_false] <;>
      norm_num [max_def]
  have s5 : (fwCheck ⟨1000, 5⟩ t5 (some ⟨4, w⟩)).2 = ⟨5, w⟩ ∧
      (fwCheck ⟨1000, 5⟩ t5 (some ⟨4, w⟩)).1.allowed = true ∧
      (fwCheck ⟨1000, 5⟩ t5 (some ⟨4, w⟩)).1.remaining = 0 := by
    refine ⟨?_, ?_, ?_⟩ <;>
      simp only [fwCheck, Option.getD_some, h5, ← hw, lt_self_iff_false, if_false] <;>
      norm_num [max_def]
  have s6 : (fwCheck ⟨1000, 5⟩ t6 (some ⟨5, w⟩)).2 = ⟨5, w⟩ ∧
      (fwCheck ⟨1000, 5⟩ t6 (some ⟨5, w⟩)).1.allowed = false ∧
      (fwCheck ⟨1000, 5⟩ t6 (some ⟨5, w⟩)).1.remaining = 0 := by
    refine ⟨?_, ?_, ?_⟩ <;>
      simp only [fwCheck, Option.getD_some, h6, ← hw, lt_self_iff_false, if_false] <;>
      norm_num [max_def]
  simp only [fwRun, List.map_cons, List.map_nil, s1.1, s1.2.1, s1.2.2,
    s2.1, s2.2.1, s2.2.2, s3.1, s3.2.1, s3.2.2, s4.1, s4.2.1, s4.2.2,
    s5.1, s5.2.1, s5.2.2, s6.1, s6.2.1, s6.2.2]

/-- Closed instance of `C9_fixed_window_scenario`: six calls all at time 0. -/
theorem C9_fixed_window_scenario_witness :
    (fwRun ⟨1000, 5⟩ none [0, 0, 0, 0, 0, 0]).1.map
        (fun d => (d.allowed, d.remaining))
      = [(true, 4), (true, 3), (true, 2), (true, 1), (true, 0), (false, 0)] :=
  C9_fixed_window_scenario 0 0 0 0 0 0 rfl rfl rfl rfl rfl

end RateLimiter


